import Mathlib

/-!
Shallow embedding of `src/main.rs` of the midi-rs repository: a MIDI event
decoder (`decode_midi_message`) driving a polyphonic `Synthesizer` that owns
one rodio `Sink` per sounding note plus a global pitch-bend offset.

Modelling choices:
* `f32` frequency arithmetic is modelled over `ℝ` (`powf` becomes `Real.rpow`).
* A rodio `Sink` is modelled by an opaque numeric handle (`sinkId`, drawn from
  a fresh-handle counter `nextSink`) together with the frequency of the sine
  wave currently appended to it (`wave`).  `Sink::stop()` and dropping a sink
  (which stops its playback) are modelled by pushing the handle onto the
  `released` list.
* The `HashMap<u8, (Sink, f32)>` voice table is modelled by an association
  list with the usual insert/remove/lookup operations; the unique-keys
  representation invariant of a hash map is `KeysNodup` below and is proved
  to hold in every reachable state.
* Rust integer casts are modelled exactly: `value as i16` on a `u16` is a
  wrapping reinterpretation (`u16_as_i16`), and the following i16 subtraction
  wraps (`i16_wrap`), matching release-mode semantics.
* A Rust panic (out-of-bounds index `message[i]`, or `.unwrap()` on `Err`) is
  modelled by `Option`: `none` means the call panicked and no result state
  exists.
-/

namespace MidiRs

/-- One sounding voice: the opaque handle of its rodio `Sink`, the frequency
of the sine wave currently appended to that sink, and the stored
`base_frequency` (second component of the hash-map value in the source). -/
structure Voice where
  sinkId : Nat
  wave : ℝ
  base : ℝ

/-- State of `struct Synthesizer`: the voice table `sinks`, the signed
`pitch_bend_value : i16`, plus the resource-accounting ghost state
(`nextSink` fresh-handle counter, `released` handles that were stopped or
dropped). The opaque `stream_handle` field carries no state and is omitted. -/
structure Synthesizer where
  sinks : List (Nat × Voice)
  pitch_bend_value : ℤ
  nextSink : Nat
  released : List Nat

/-- Lookup in the voice table, `self.sinks.get(&note)`. -/
def tableGet : List (Nat × Voice) → Nat → Option Voice
  | [], _ => none
  | (k, v) :: rest, n => if k = n then some v else tableGet rest n

/-- `HashMap::insert`: replace the binding for the key if present, else
append a new binding. -/
def tableInsert : List (Nat × Voice) → Nat → Voice → List (Nat × Voice)
  | [], n, v => [(n, v)]
  | (k, w) :: rest, n, v =>
    if k = n then (n, v) :: rest else (k, w) :: tableInsert rest n v

/-- `HashMap::remove`: drop the binding for the key if present. -/
def tableRemove : List (Nat × Voice) → Nat → List (Nat × Voice)
  | [], _ => []
  | (k, w) :: rest, n => if k = n then rest else (k, w) :: tableRemove rest n

/-- Wrap an integer into the `i16` range `[-32768, 32767]`. -/
def i16_wrap (z : ℤ) : ℤ := (z + 32768) % 65536 - 32768

/-- Reinterpret a `u16` bit pattern as an `i16` (`value as i16` in Rust). -/
def u16_as_i16 (v : Nat) : ℤ := i16_wrap ((v : ℤ) % 65536)

/-- Equal-tempered frequency of a MIDI note, from `midi_note_to_freq`:
`440.0 * 2.0f32.powf((note as f32 - 69.0) / 12.0)`. -/
noncomputable def midi_note_to_freq (note : Nat) : ℝ :=
  440 * (2 : ℝ) ^ (((note : ℝ) - 69) / 12)

/-- `Synthesizer::apply_pitch_bend`: scale a base frequency by
`semitone_ratio ^ bend_amount` with `semitone_ratio = 2^(1/12)` and
`bend_amount = pitch_bend_value / 8192 * 2` (±2 semitones). -/
noncomputable def Synthesizer.apply_pitch_bend (s : Synthesizer)
    (base_frequency : ℝ) : ℝ :=
  let semitone_ratio : ℝ := (2 : ℝ) ^ ((1 : ℝ) / 12)
  let bend_amount : ℝ := (s.pitch_bend_value : ℝ) / 8192 * 2
  base_frequency * semitone_ratio ^ bend_amount

/-- `Synthesizer::new`: empty voice table, `pitch_bend_value: 0`. -/
def Synthesizer.new : Synthesizer :=
  { sinks := [], pitch_bend_value := 0, nextSink := 0, released := [] }

/-- `Synthesizer::note_on` (success path of `Sink::try_new`): compute the
base frequency, apply the current bend, acquire a fresh sink playing a sine
wave at that frequency, and insert it, replacing (and thereby dropping, i.e.
releasing) any previous sink for the same note.  `velocity` is accepted and
ignored, as in the source. -/
noncomputable def Synthesizer.note_on (s : Synthesizer) (note velocity : Nat) :
    Synthesizer :=
  let base_frequency := midi_note_to_freq note
  let frequency := s.apply_pitch_bend base_frequency
  { s with
    sinks := tableInsert s.sinks note ⟨s.nextSink, frequency, base_frequency⟩
    nextSink := s.nextSink + 1
    released :=
      match tableGet s.sinks note with
      | some old => old.sinkId :: s.released
      | none => s.released }

/-- `Synthesizer::note_on` with the outcome of `Sink::try_new` made explicit:
`acquired = false` models `Sink::try_new` returning `Err`, on which the
source calls `.unwrap()` and panics — there is no resulting engine state
(`none`), the panic unwinds out of note_on (and, uncaught, terminates). -/
noncomputable def Synthesizer.note_on_acquire (s : Synthesizer)
    (acquired : Bool) (note velocity : Nat) : Option Synthesizer :=
  if acquired then some (s.note_on note velocity) else none

/-- `Synthesizer::note_off`: if a sink exists for the note, remove it and
stop (release) it; otherwise do nothing. -/
def Synthesizer.note_off (s : Synthesizer) (note : Nat) : Synthesizer :=
  match tableGet s.sinks note with
  | some v =>
    { s with
      sinks := tableRemove s.sinks note
      released := v.sinkId :: s.released }
  | none => s

/-- Retune one voice: same sink, same base, sine wave replaced by the
recomputed frequency (the source's pause / clear / append / play per-voice
step, which leaves the same sink playing the recomputed frequency). -/
noncomputable def retuneVoice (s1 : Synthesizer) (v : Voice) : Voice :=
  { v with wave := s1.apply_pitch_bend v.base }

/-- `Synthesizer::pitch_bend_change`: set
`pitch_bend_value = (value as i16) - 8192` (i16 arithmetic), then retune
every live sink to `apply_pitch_bend(base_frequency)` under the new
offset. -/
noncomputable def Synthesizer.pitch_bend_change (s : Synthesizer)
    (value : Nat) : Synthesizer :=
  let s1 := { s with pitch_bend_value := i16_wrap (u16_as_i16 value - 8192) }
  { s1 with sinks := s1.sinks.map fun p => (p.1, retuneVoice s1 p.2) }

/-- The typed classification a decoded message is reported as (the source
prints one line per kind; NoteOff/NoteOn/PitchBend additionally act on the
synthesizer). -/
inductive MidiEvent where
  | noteOff (channel note velocity : Nat)
  | noteOn (channel note velocity : Nat)
  | polyPressure (channel note pressure : Nat)
  | controlChange (channel controller value : Nat)
  | programChange (channel program : Nat)
  | channelPressure (channel pressure : Nat)
  | pitchBend (channel value : Nat)
  | unknown (bytes : List Nat)
  deriving DecidableEq

/-- `decode_midi_message(synth, message)`: empty input returns early with no
event; otherwise the first byte's range selects the branch; `message[1]` and
`message[2]` are unchecked indexings (out of bounds panics: `none`).  The
result pairs the classified event (`none` inside for the empty early return)
with the synthesizer state after the branch's action. -/
noncomputable def decode_midi_message (synth : Synthesizer)
    (message : List Nat) : Option (Option MidiEvent × Synthesizer) :=
  match message with
  | [] => some (none, synth)
  | b :: _ =>
    if 0x80 ≤ b ∧ b ≤ 0x8F then
      match message.get? 1, message.get? 2 with
      | some note, some velocity =>
        some (some (.noteOff (b &&& 0x0F) note velocity), synth.note_off note)
      | _, _ => none
    else if 0x90 ≤ b ∧ b ≤ 0x9F then
      match message.get? 1, message.get? 2 with
      | some note, some velocity =>
        some (some (.noteOn (b &&& 0x0F) note velocity),
          synth.note_on note velocity)
      | _, _ => none
    else if 0xA0 ≤ b ∧ b ≤ 0xAF then
      match message.get? 1, message.get? 2 with
      | some note, some pressure =>
        some (some (.polyPressure (b &&& 0x0F) note pressure), synth)
      | _, _ => none
    else if 0xB0 ≤ b ∧ b ≤ 0xBF then
      match message.get? 1, message.get? 2 with
      | some controller, some value =>
        some (some (.controlChange (b &&& 0x0F) controller value), synth)
      | _, _ => none
    else if 0xC0 ≤ b ∧ b ≤ 0xCF then
      match message.get? 1 with
      | some program => some (some (.programChange (b &&& 0x0F) program), synth)
      | none => none
    else if 0xD0 ≤ b ∧ b ≤ 0xDF then
      match message.get? 1 with
      | some pressure =>
        some (some (.channelPressure (b &&& 0x0F) pressure), synth)
      | none => none
    else if 0xE0 ≤ b ∧ b ≤ 0xEF then
      match message.get? 1, message.get? 2 with
      | some b1, some b2 =>
        let value := (b2 <<< 7) ||| b1
        some (some (.pitchBend (b &&& 0x0F) value),
          synth.pitch_bend_change value)
      | _, _ => none
    else
      some (some (.unknown message), synth)

/-- One Voice Engine operation, for describing event sequences. -/
inductive Op where
  | noteOn (note velocity : Nat)
  | noteOff (note : Nat)
  | pitchBend (value : Nat)
  deriving DecidableEq

/-- Apply one operation to the synthesizer. -/
noncomputable def applyOp (s : Synthesizer) : Op → Synthesizer
  | .noteOn n v => s.note_on n v
  | .noteOff n => s.note_off n
  | .pitchBend v => s.pitch_bend_change v

/-- Run a finite sequence of operations. -/
noncomputable def runOps (s : Synthesizer) (ops : List Op) : Synthesizer :=
  ops.foldl applyOp s

/-- Keys of the voice table. -/
def tableKeys (m : List (Nat × Voice)) : List Nat := m.map Prod.fst

/-- Representation invariant of the `HashMap`: voice-table keys are distinct. -/
def KeysNodup (s : Synthesizer) : Prop := (tableKeys s.sinks).Nodup

/-- Every live voice sounds at the current bend applied to its stored base
frequency (statement uses the source formula `apply_pitch_bend`). -/
def FreqInvariant (s : Synthesizer) : Prop :=
  ∀ n v, tableGet s.sinks n = some v → v.wave = s.apply_pitch_bend v.base

theorem tableGet_tableInsert_self (m : List (Nat × Voice)) (n : Nat)
    (v : Voice) : tableGet (tableInsert m n v) n = some v := by
  induction m with
  | nil => simp [tableInsert, tableGet]
  | cons p rest ih =>
    obtain ⟨k, w⟩ := p
    by_cases hk : k = n <;> simp [tableInsert, tableGet, hk, ih]

theorem tableGet_tableInsert_ne (m : List (Nat × Voice)) (n k : Nat)
    (v : Voice) (h : k ≠ n) :
    tableGet (tableInsert m n v) k = tableGet m k := by
  induction m with
  | nil => simp [tableInsert, tableGet, Ne.symm h]
  | cons p rest ih =>
    obtain ⟨k', w⟩ := p
    by_cases hk : k' = n
    · subst hk
      simp [tableInsert, tableGet, Ne.symm h]
    · by_cases hk2 : k' = k <;> simp [tableInsert, tableGet, hk, hk2, ih, h]

theorem tableGet_tableRemove_ne (m : List (Nat × Voice)) (n k : Nat)
    (h : k ≠ n) : tableGet (tableRemove m n) k = tableGet m k := by
  induction m with
  | nil => simp [tableRemove]
  | cons p rest ih =>
    obtain ⟨k', w⟩ := p
    by_cases hk : k' = n
    · subst hk
      simp [tableRemove, tableGet, Ne.symm h]
    · by_cases hk2 : k' = k <;> simp [tableRemove, tableGet, hk, hk2, ih, h]

theorem tableGet_eq_none_of_not_mem (m : List (Nat × Voice)) (n : Nat)
    (h : n ∉ tableKeys m) : tableGet m n = none := by
  induction m with
  | nil => simp [tableGet]
  | cons p rest ih =>
    obtain ⟨k, w⟩ := p
    simp only [tableKeys, List.map_cons, List.mem_cons] at h
    push_neg at h
    simp [tableGet, Ne.symm h.1, ih (by simpa [tableKeys] using h.2)]

theorem tableGet_tableRemove_self (m : List (Nat × Voice)) (n : Nat)
    (hnd : (tableKeys m).Nodup) : tableGet (tableRemove m n) n = none := by
  induction m with
  | nil => simp [tableRemove, tableGet]
  | cons p rest ih =>
    obtain ⟨k, w⟩ := p
    simp only [tableKeys, List.map_cons, List.nodup_cons] at hnd
    by_cases hk : k = n
    · subst hk
      simpa [tableRemove] using
        tableGet_eq_none_of_not_mem rest k (by simpa [tableKeys] using hnd.1)
    · simp [tableRemove, tableGet, hk, ih (by simpa [tableKeys] using hnd.2)]

theorem tableGet_map_voice (m : List (Nat × Voice)) (g : Voice → Voice)
    (n : Nat) :
    tableGet (m.map fun p => (p.1, g p.2)) n = (tableGet m n).map g := by
  induction m with
  | nil => simp [tableGet]
  | cons p rest ih =>
    obtain ⟨k, w⟩ := p
    by_cases hk : k = n <;> simp [tableGet, hk, ih]

theorem tableKeys_map_voice (m : List (Nat × Voice)) (g : Voice → Voice) :
    tableKeys (m.map fun p => (p.1, g p.2)) = tableKeys m := by
  induction m with
  | nil => rfl
  | cons p rest ih => simp [tableKeys]

theorem mem_tableKeys_tableInsert (m : List (Nat × Voice)) (n k : Nat)
    (v : Voice) :
    k ∈ tableKeys (tableInsert m n v) ↔ k = n ∨ k ∈ tableKeys m := by
  induction m with
  | nil => simp [tableInsert, tableKeys]
  | cons p rest ih =>
    obtain ⟨k', w⟩ := p
    by_cases hk : k' = n
    · subst hk
      simp [tableInsert, tableKeys, List.mem_cons]
    · simp [tableInsert, tableKeys, hk, List.mem_cons] at ih ⊢
      tauto

theorem keysNodup_tableInsert (m : List (Nat × Voice)) (n : Nat) (v : Voice)
    (h : (tableKeys m).Nodup) : (tableKeys (tableInsert m n v)).Nodup := by
  induction m with
  | nil => simp [tableInsert, tableKeys]
  | cons p rest ih =>
    obtain ⟨k, w⟩ := p
    simp only [tableKeys, List.map_cons, List.nodup_cons] at h
    by_cases hk : k = n
    · subst hk
      simp only [tableInsert, if_pos rfl]
      simpa [tableKeys, List.nodup_cons] using h
    · have hrest := ih (by simpa [tableKeys] using h.2)
      simp only [tableInsert, if_neg hk, tableKeys, List.map_cons,
        List.nodup_cons]
      refine ⟨?_, hrest⟩
      intro hmem
      rcases (mem_tableKeys_tableInsert rest n k v).mp hmem with h1 | h2
      · exact hk h1
      · exact h.1 (by simpa [tableKeys] using h2)

theorem tableKeys_tableRemove_sublist (m : List (Nat × Voice)) (n : Nat) :
    (tableKeys (tableRemove m n)).Sublist (tableKeys m) := by
  induction m with
  | nil => simp [tableRemove]
  | cons p rest ih =>
    obtain ⟨k, w⟩ := p
    by_cases hk : k = n
    · subst hk
      simp only [tableRemove, if_pos rfl, tableKeys, List.map_cons]
      exact List.sublist_cons_self _ _
    · simpa [tableRemove, hk, tableKeys] using ih.cons₂ k

theorem keysNodup_tableRemove (m : List (Nat × Voice)) (n : Nat)
    (h : (tableKeys m).Nodup) : (tableKeys (tableRemove m n)).Nodup :=
  (tableKeys_tableRemove_sublist m n).nodup h

theorem apply_pitch_bend_congr (s t : Synthesizer)
    (h : s.pitch_bend_value = t.pitch_bend_value) (b : ℝ) :
    s.apply_pitch_bend b = t.apply_pitch_bend b := by
  simp [Synthesizer.apply_pitch_bend, h]

theorem note_off_of_none (s : Synthesizer) (n : Nat)
    (h : tableGet s.sinks n = none) : s.note_off n = s := by
  simp [Synthesizer.note_off, h]

theorem note_off_of_some (s : Synthesizer) (n : Nat) (v : Voice)
    (h : tableGet s.sinks n = some v) :
    s.note_off n =
      { s with
        sinks := tableRemove s.sinks n
        released := v.sinkId :: s.released } := by
  simp [Synthesizer.note_off, h]

theorem pitch_bend_value_note_off (s : Synthesizer) (n : Nat) :
    (s.note_off n).pitch_bend_value = s.pitch_bend_value := by
  unfold Synthesizer.note_off
  cases tableGet s.sinks n <;> rfl

theorem sinks_note_off (s : Synthesizer) (n : Nat) :
    (s.note_off n).sinks = tableRemove s.sinks n ∨ (s.note_off n).sinks = s.sinks := by
  unfold Synthesizer.note_off
  cases tableGet s.sinks n
  · right; rfl
  · left; rfl

theorem sinks_note_on (s : Synthesizer) (note velocity : Nat) :
    (s.note_on note velocity).sinks =
      tableInsert s.sinks note
        ⟨s.nextSink, s.apply_pitch_bend (midi_note_to_freq note),
          midi_note_to_freq note⟩ := rfl

theorem pitch_bend_value_note_on (s : Synthesizer) (note velocity : Nat) :
    (s.note_on note velocity).pitch_bend_value = s.pitch_bend_value := rfl

theorem nextSink_note_on (s : Synthesizer) (note velocity : Nat) :
    (s.note_on note velocity).nextSink = s.nextSink + 1 := rfl

theorem sinks_pitch_bend_change (s : Synthesizer) (value : Nat) :
    (s.pitch_bend_change value).sinks =
      s.sinks.map fun p =>
        (p.1,
          retuneVoice
            { s with pitch_bend_value := i16_wrap (u16_as_i16 value - 8192) }
            p.2) := rfl

theorem pitch_bend_value_pitch_bend_change (s : Synthesizer) (value : Nat) :
    (s.pitch_bend_change value).pitch_bend_value =
      i16_wrap (u16_as_i16 value - 8192) := rfl

theorem nextSink_pitch_bend_change (s : Synthesizer) (value : Nat) :
    (s.pitch_bend_change value).nextSink = s.nextSink := rfl

theorem released_pitch_bend_change (s : Synthesizer) (value : Nat) :
    (s.pitch_bend_change value).released = s.released := rfl

/-- Combined reachable-state invariant: distinct voice-table keys and every
voice in tune with the current bend. -/
def Inv (s : Synthesizer) : Prop := KeysNodup s ∧ FreqInvariant s

theorem keysNodup_new : KeysNodup Synthesizer.new := by
  simp [KeysNodup, Synthesizer.new, tableKeys]

theorem freqInvariant_new : FreqInvariant Synthesizer.new := by
  intro n v h
  simp [Synthesizer.new, tableGet] at h

theorem keysNodup_note_on (s : Synthesizer) (note velocity : Nat)
    (h : KeysNodup s) : KeysNodup (s.note_on note velocity) := by
  unfold KeysNodup
  rw [sinks_note_on]
  exact keysNodup_tableInsert _ _ _ h

theorem keysNodup_note_off (s : Synthesizer) (note : Nat)
    (h : KeysNodup s) : KeysNodup (s.note_off note) := by
  unfold KeysNodup
  rcases sinks_note_off s note with heq | heq <;> rw [heq]
  · exact keysNodup_tableRemove _ _ h
  · exact h

theorem keysNodup_pitch_bend_change (s : Synthesizer) (value : Nat)
    (h : KeysNodup s) : KeysNodup (s.pitch_bend_change value) := by
  unfold KeysNodup
  rw [sinks_pitch_bend_change, tableKeys_map_voice]
  exact h

theorem freqInvariant_note_on (s : Synthesizer) (note velocity : Nat)
    (h : FreqInvariant s) : FreqInvariant (s.note_on note velocity) := by
  intro n v hget
  rw [sinks_note_on] at hget
  have hcongr := fun b =>
    apply_pitch_bend_congr s (s.note_on note velocity) rfl b
  by_cases hn : n = note
  · subst hn
    rw [tableGet_tableInsert_self] at hget
    cases hget
    exact hcongr _
  · rw [tableGet_tableInsert_ne _ _ _ _ hn] at hget
    rw [← hcongr v.base]
    exact h n v hget

theorem freqInvariant_note_off (s : Synthesizer) (note : Nat)
    (hnd : KeysNodup s) (h : FreqInvariant s) :
    FreqInvariant (s.note_off note) := by
  intro n v hget
  have hcongr := fun b =>
    apply_pitch_bend_congr s (s.note_off note) (pitch_bend_value_note_off s note).symm b
  rw [← hcongr v.base]
  rcases sinks_note_off s note with heq | heq <;> rw [heq] at hget
  · by_cases hn : n = note
    · subst hn
      rw [tableGet_tableRemove_self _ _ hnd] at hget
      cases hget
    · rw [tableGet_tableRemove_ne _ _ _ hn] at hget
      exact h n v hget
  · exact h n v hget

theorem freqInvariant_pitch_bend_change (s : Synthesizer) (value : Nat) :
    FreqInvariant (s.pitch_bend_change value) := by
  intro n v hget
  rw [sinks_pitch_bend_change, tableGet_map_voice] at hget
  rcases hmem : tableGet s.sinks n with _ | w
  · rw [hmem] at hget
    cases hget
  · rw [hmem] at hget
    cases hget
    exact apply_pitch_bend_congr _ _ rfl _

theorem inv_new : Inv Synthesizer.new := ⟨keysNodup_new, freqInvariant_new⟩

theorem inv_applyOp (s : Synthesizer) (op : Op) (h : Inv s) :
    Inv (applyOp s op) := by
  obtain ⟨hnd, hfreq⟩ := h
  cases op with
  | noteOn n v =>
    exact ⟨keysNodup_note_on s n v hnd, freqInvariant_note_on s n v hfreq⟩
  | noteOff n =>
    exact ⟨keysNodup_note_off s n hnd, freqInvariant_note_off s n hnd hfreq⟩
  | pitchBend v =>
    exact ⟨keysNodup_pitch_bend_change s v hnd,
      freqInvariant_pitch_bend_change s v⟩

theorem inv_runOps_of (s : Synthesizer) (ops : List Op) (h : Inv s) :
    Inv (runOps s ops) := by
  induction ops generalizing s with
  | nil => exact h
  | cons op ops ih => exact ih _ (inv_applyOp s op h)

theorem inv_runOps (ops : List Op) : Inv (runOps Synthesizer.new ops) :=
  inv_runOps_of _ _ inv_new

theorem pow_semitone (x : ℝ) :
    ((2 : ℝ) ^ ((1 : ℝ) / 12)) ^ x = (2 : ℝ) ^ (x / 12) := by
  rw [← Real.rpow_mul (by norm_num : (0 : ℝ) ≤ 2), one_div_mul_eq_div]

/-- The source formula `base * semitone_ratio ^ bend_amount` equals the
spec formula `base * 2 ^ ((bend_offset / 8192 * 2) / 12)`. -/
theorem apply_pitch_bend_eq (s : Synthesizer) (b : ℝ) :
    s.apply_pitch_bend b =
      b * (2 : ℝ) ^ (((s.pitch_bend_value : ℝ) / 8192 * 2) / 12) := by
  simp only [Synthesizer.apply_pitch_bend]
  rw [pow_semitone]

theorem apply_pitch_bend_of_zero (s : Synthesizer)
    (h : s.pitch_bend_value = 0) (b : ℝ) : s.apply_pitch_bend b = b := by
  simp [Synthesizer.apply_pitch_bend, h]

theorem apply_pitch_bend_of_4096 (s : Synthesizer)
    (h : s.pitch_bend_value = 4096) (b : ℝ) :
    s.apply_pitch_bend b = b * (2 : ℝ) ^ ((1 : ℝ) / 12) := by
  simp only [Synthesizer.apply_pitch_bend, h]
  norm_num

theorem i16_wrap_bend_12288 : i16_wrap (u16_as_i16 12288 - 8192) = 4096 := by
  decide

theorem i16_wrap_bend_8192 : i16_wrap (u16_as_i16 8192 - 8192) = 0 := by
  decide

theorem i16_wrap_bend_16383 : i16_wrap (u16_as_i16 16383 - 8192) = 8191 := by
  decide

/-- The kinds of classified events. -/
inductive EventKind where
  | noteOff
  | noteOn
  | polyPressure
  | controlChange
  | programChange
  | channelPressure
  | pitchBend
  | unknown
  deriving DecidableEq

/-- Kind of a classified event. -/
def MidiEvent.kind : MidiEvent → EventKind
  | .noteOff .. => .noteOff
  | .noteOn .. => .noteOn
  | .polyPressure .. => .polyPressure
  | .controlChange .. => .controlChange
  | .programChange .. => .programChange
  | .channelPressure .. => .channelPressure
  | .pitchBend .. => .pitchBend
  | .unknown .. => .unknown

/-- Channel of a classified event (`none` for `unknown`, which carries no
channel). -/
def MidiEvent.chan : MidiEvent → Option Nat
  | .noteOff c _ _ => some c
  | .noteOn c _ _ => some c
  | .polyPressure c _ _ => some c
  | .controlChange c _ _ => some c
  | .programChange c _ => some c
  | .channelPressure c _ => some c
  | .pitchBend c _ => some c
  | .unknown _ => none

/-- Modelled from the spec: the kind the spec assigns to each high nibble of
the status byte (`0x8` NoteOff … `0xE` PitchBend, anything else Unknown);
compared against the source decoder's range dispatch. -/
def specNibbleKind (hi : Nat) : EventKind :=
  if hi = 0x8 then .noteOff
  else if hi = 0x9 then .noteOn
  else if hi = 0xA then .polyPressure
  else if hi = 0xB then .controlChange
  else if hi = 0xC then .programChange
  else if hi = 0xD then .channelPressure
  else if hi = 0xE then .pitchBend
  else .unknown

theorem land_fifteen (b : Nat) : b &&& 15 = b % 16 := by
  have h := Nat.and_pow_two_sub_one_eq_mod b 4
  norm_num at h
  exact h

theorem decode_empty (s : Synthesizer) :
    decode_midi_message s [] = some (none, s) := rfl

theorem decode_noteOff (s : Synthesizer) (b d1 d2 : Nat) (rest : List Nat)
    (h1 : 0x80 ≤ b) (h2 : b ≤ 0x8F) :
    decode_midi_message s (b :: d1 :: d2 :: rest) =
      some (some (.noteOff (b &&& 0x0F) d1 d2), s.note_off d1) := by
  simp only [decode_midi_message, List.get?]
  rw [if_pos ⟨h1, h2⟩]

theorem decode_noteOn (s : Synthesizer) (b d1 d2 : Nat) (rest : List Nat)
    (h1 : 0x90 ≤ b) (h2 : b ≤ 0x9F) :
    decode_midi_message s (b :: d1 :: d2 :: rest) =
      some (some (.noteOn (b &&& 0x0F) d1 d2), s.note_on d1 d2) := by
  simp only [decode_midi_message, List.get?]
  rw [if_neg (by omega), if_pos ⟨h1, h2⟩]

theorem decode_polyPressure (s : Synthesizer) (b d1 d2 : Nat) (rest : List Nat)
    (h1 : 0xA0 ≤ b) (h2 : b ≤ 0xAF) :
    decode_midi_message s (b :: d1 :: d2 :: rest) =
      some (some (.polyPressure (b &&& 0x0F) d1 d2), s) := by
  simp only [decode_midi_message, List.get?]
  rw [if_neg (by omega), if_neg (by omega), if_pos ⟨h1, h2⟩]

theorem decode_controlChange (s : Synthesizer) (b d1 d2 : Nat) (rest : List Nat)
    (h1 : 0xB0 ≤ b) (h2 : b ≤ 0xBF) :
    decode_midi_message s (b :: d1 :: d2 :: rest) =
      some (some (.controlChange (b &&& 0x0F) d1 d2), s) := by
  simp only [decode_midi_message, List.get?]
  rw [if_neg (by omega), if_neg (by omega), if_neg (by omega), if_pos ⟨h1, h2⟩]

theorem decode_programChange (s : Synthesizer) (b d1 : Nat) (rest : List Nat)
    (h1 : 0xC0 ≤ b) (h2 : b ≤ 0xCF) :
    decode_midi_message s (b :: d1 :: rest) =
      some (some (.programChange (b &&& 0x0F) d1), s) := by
  simp only [decode_midi_message, List.get?]
  rw [if_neg (by omega), if_neg (by omega), if_neg (by omega),
    if_neg (by omega), if_pos ⟨h1, h2⟩]

theorem decode_channelPressure (s : Synthesizer) (b d1 : Nat) (rest : List Nat)
    (h1 : 0xD0 ≤ b) (h2 : b ≤ 0xDF) :
    decode_midi_message s (b :: d1 :: rest) =
      some (some (.channelPressure (b &&& 0x0F) d1), s) := by
  simp only [decode_midi_message, List.get?]
  rw [if_neg (by omega), if_neg (by omega), if_neg (by omega),
    if_neg (by omega), if_neg (by omega), if_pos ⟨h1, h2⟩]

theorem decode_pitchBend (s : Synthesizer) (b b1 b2 : Nat) (rest : List Nat)
    (h1 : 0xE0 ≤ b) (h2 : b ≤ 0xEF) :
    decode_midi_message s (b :: b1 :: b2 :: rest) =
      some (some (.pitchBend (b &&& 0x0F) ((b2 <<< 7) ||| b1)),
        s.pitch_bend_change ((b2 <<< 7) ||| b1)) := by
  simp only [decode_midi_message, List.get?]
  rw [if_neg (by omega), if_neg (by omega), if_neg (by omega),
    if_neg (by omega), if_neg (by omega), if_neg (by omega), if_pos ⟨h1, h2⟩]

theorem decode_unknown (s : Synthesizer) (b : Nat) (rest : List Nat)
    (h : b < 0x80 ∨ 0xF0 ≤ b) :
    decode_midi_message s (b :: rest) =
      some (some (.unknown (b :: rest)), s) := by
  simp only [decode_midi_message]
  rw [if_neg (by omega), if_neg (by omega), if_neg (by omega),
    if_neg (by omega), if_neg (by omega), if_neg (by omega), if_neg (by omega)]

theorem decode_kind_channel (s : Synthesizer) (b : Nat) (rest : List Nat)
    (e : MidiEvent) (s' : Synthesizer)
    (hdec : decode_midi_message s (b :: rest) = some (some e, s')) :
    e.kind = specNibbleKind (b >>> 4) ∧ ∀ c, e.chan = some c → c = b % 16 := by
  have hdiv : b >>> 4 = b / 16 := by
    rw [Nat.shiftRight_eq_div_pow]
  by_cases hOff : 0x80 ≤ b ∧ b ≤ 0x8F
  · have hk : specNibbleKind (b >>> 4) = .noteOff := by
      rw [hdiv, show b / 16 = 8 by omega]
      rfl
    rcases rest with _ | ⟨d1, _ | ⟨d2, rest2⟩⟩
    · rw [show decode_midi_message s [b] = none by
        simp only [decode_midi_message, List.get?]
        rw [if_pos hOff]] at hdec
      cases hdec
    · rw [show decode_midi_message s [b, d1] = none by
        simp only [decode_midi_message, List.get?]
        rw [if_pos hOff]] at hdec
      cases hdec
    · rw [decode_noteOff s b d1 d2 rest2 hOff.1 hOff.2] at hdec
      simp only [Option.some.injEq, Prod.mk.injEq] at hdec
      obtain ⟨he, hs⟩ := hdec
      subst he
      refine ⟨hk.symm, fun c hc => ?_⟩
      simp only [MidiEvent.chan, Option.some.injEq] at hc
      rw [← hc, land_fifteen]
  · by_cases hOn : 0x90 ≤ b ∧ b ≤ 0x9F
    · have hk : specNibbleKind (b >>> 4) = .noteOn := by
        rw [hdiv, show b / 16 = 9 by omega]
        rfl
      rcases rest with _ | ⟨d1, _ | ⟨d2, rest2⟩⟩
      · rw [show decode_midi_message s [b] = none by
          simp only [decode_midi_message, List.get?]
          rw [if_neg hOff, if_pos hOn]] at hdec
        cases hdec
      · rw [show decode_midi_message s [b, d1] = none by
          simp only [decode_midi_message, List.get?]
          rw [if_neg hOff, if_pos hOn]] at hdec
        cases hdec
      · rw [decode_noteOn s b d1 d2 rest2 hOn.1 hOn.2] at hdec
        simp only [Option.some.injEq, Prod.mk.injEq] at hdec
        obtain ⟨he, hs⟩ := hdec
        subst he
        refine ⟨hk.symm, fun c hc => ?_⟩
        simp only [MidiEvent.chan, Option.some.injEq] at hc
        rw [← hc, land_fifteen]
    · by_cases hPoly : 0xA0 ≤ b ∧ b ≤ 0xAF
      · have hk : specNibbleKind (b >>> 4) = .polyPressure := by
          rw [hdiv, show b / 16 = 10 by omega]
          rfl
        rcases rest with _ | ⟨d1, _ | ⟨d2, rest2⟩⟩
        · rw [show decode_midi_message s [b] = none by
            simp only [decode_midi_message, List.get?]
            rw [if_neg hOff, if_neg hOn, if_pos hPoly]] at hdec
          cases hdec
        · rw [show decode_midi_message s [b, d1] = none by
            simp only [decode_midi_message, List.get?]
            rw [if_neg hOff, if_neg hOn, if_pos hPoly]] at hdec
          cases hdec
        · rw [decode_polyPressure s b d1 d2 rest2 hPoly.1 hPoly.2] at hdec
          simp only [Option.some.injEq, Prod.mk.injEq] at hdec
          obtain ⟨he, hs⟩ := hdec
          subst he
          refine ⟨hk.symm, fun c hc => ?_⟩
          simp only [MidiEvent.chan, Option.some.injEq] at hc
          rw [← hc, land_fifteen]
      · by_cases hCtl : 0xB0 ≤ b ∧ b ≤ 0xBF
        · have hk : specNibbleKind (b >>> 4) = .controlChange := by
            rw [hdiv, show b / 16 = 11 by omega]
            rfl
          rcases rest with _ | ⟨d1, _ | ⟨d2, rest2⟩⟩
          · rw [show decode_midi_message s [b] = none by
              simp only [decode_midi_message, List.get?]
              rw [if_neg hOff, if_neg hOn, if_neg hPoly, if_pos hCtl]] at hdec
            cases hdec
          · rw [show decode_midi_message s [b, d1] = none by
              simp only [decode_midi_message, List.get?]
              rw [if_neg hOff, if_neg hOn, if_neg hPoly, if_pos hCtl]] at hdec
            cases hdec
          · rw [decode_controlChange s b d1 d2 rest2 hCtl.1 hCtl.2] at hdec
            simp only [Option.some.injEq, Prod.mk.injEq] at hdec
            obtain ⟨he, hs⟩ := hdec
            subst he
            refine ⟨hk.symm, fun c hc => ?_⟩
            simp only [MidiEvent.chan, Option.some.injEq] at hc
            rw [← hc, land_fifteen]
        · by_cases hProg : 0xC0 ≤ b ∧ b ≤ 0xCF
          · have hk : specNibbleKind (b >>> 4) = .programChange := by
              rw [hdiv, show b / 16 = 12 by omega]
              rfl
            rcases rest with _ | ⟨d1, rest1⟩
            · rw [show decode_midi_message s [b] = none by
                simp only [decode_midi_message, List.get?]
                rw [if_neg hOff, if_neg hOn, if_neg hPoly, if_neg hCtl,
                  if_pos hProg]] at hdec
              cases hdec
            · rw [decode_programChange s b d1 rest1 hProg.1 hProg.2] at hdec
              simp only [Option.some.injEq, Prod.mk.injEq] at hdec
              obtain ⟨he, hs⟩ := hdec
              subst he
              refine ⟨hk.symm, fun c hc => ?_⟩
              simp only [MidiEvent.chan, Option.some.injEq] at hc
              rw [← hc, land_fifteen]
          · by_cases hChp : 0xD0 ≤ b ∧ b ≤ 0xDF
            · have hk : specNibbleKind (b >>> 4) = .channelPressure := by
                rw [hdiv, show b / 16 = 13 by omega]
                rfl
              rcases rest with _ | ⟨d1, rest1⟩
              · rw [show decode_midi_message s [b] = none by
                  simp only [decode_midi_message, List.get?]
                  rw [if_neg hOff, if_neg hOn, if_neg hPoly, if_neg hCtl,
                    if_neg hProg, if_pos hChp]] at hdec
                cases hdec
              · rw [decode_channelPressure s b d1 rest1 hChp.1 hChp.2] at hdec
                simp only [Option.some.injEq, Prod.mk.injEq] at hdec
                obtain ⟨he, hs⟩ := hdec
                subst he
                refine ⟨hk.symm, fun c hc => ?_⟩
                simp only [MidiEvent.chan, Option.some.injEq] at hc
                rw [← hc, land_fifteen]
            · by_cases hBend : 0xE0 ≤ b ∧ b ≤ 0xEF
              · have hk : specNibbleKind (b >>> 4) = .pitchBend := by
                  rw [hdiv, show b / 16 = 14 by omega]
                  rfl
                rcases rest with _ | ⟨d1, _ | ⟨d2, rest2⟩⟩
                · rw [show decode_midi_message s [b] = none by
                    simp only [decode_midi_message, List.get?]
                    rw [if_neg hOff, if_neg hOn, if_neg hPoly, if_neg hCtl,
                      if_neg hProg, if_neg hChp, if_pos hBend]] at hdec
                  cases hdec
                · rw [show decode_midi_message s [b, d1] = none by
                    simp only [decode_midi_message, List.get?]
                    rw [if_neg hOff, if_neg hOn, if_neg hPoly, if_neg hCtl,
                      if_neg hProg, if_neg hChp, if_pos hBend]] at hdec
                  cases hdec
                · rw [decode_pitchBend s b d1 d2 rest2 hBend.1 hBend.2] at hdec
                  simp only [Option.some.injEq, Prod.mk.injEq] at hdec
                  obtain ⟨he, hs⟩ := hdec
                  subst he
                  refine ⟨hk.symm, fun c hc => ?_⟩
                  simp only [MidiEvent.chan, Option.some.injEq] at hc
                  rw [← hc, land_fifteen]
              · have hk : specNibbleKind (b >>> 4) = .unknown := by
                  rw [hdiv]
                  unfold specNibbleKind
                  rw [if_neg (by omega), if_neg (by omega), if_neg (by omega),
                    if_neg (by omega), if_neg (by omega), if_neg (by omega),
                    if_neg (by omega)]
                rw [decode_unknown s b rest (by omega)] at hdec
                simp only [Option.some.injEq, Prod.mk.injEq] at hdec
                obtain ⟨he, hs⟩ := hdec
                subst he
                refine ⟨hk.symm, fun c hc => ?_⟩
                cases hc

theorem retuneVoice_base (s1 : Synthesizer) (v : Voice) :
    (retuneVoice s1 v).base = v.base := rfl

theorem retuneVoice_sinkId (s1 : Synthesizer) (v : Voice) :
    (retuneVoice s1 v).sinkId = v.sinkId := rfl

theorem released_note_on_of_some (s : Synthesizer) (note velocity : Nat)
    (old : Voice) (h : tableGet s.sinks note = some old) :
    (s.note_on note velocity).released = old.sinkId :: s.released := by
  simp only [Synthesizer.note_on]
  rw [h]

/-- C1: the spec claims a failed render-resource acquisition inside `note_on`
must not terminate the process and must only fail that single note.  The code
calls `Sink::try_new(&self.stream_handle).unwrap()`: when acquisition fails
the unwrap panics, so there is no resulting engine state at all — the
operation does not fail locally, it unwinds (modelled by `none`). -/
theorem C1_note_on_acquire_failure_panics (s : Synthesizer)
    (note velocity : Nat) :
    s.note_on_acquire false note velocity = none := rfl

/-- C2: after any finite operation sequence from a fresh engine, every live
voice's sounding frequency equals
`base_frequency * 2 ^ ((bend_offset / 8192 * 2) / 12)` at the engine's
current bend offset — no voice sounds at a stale bend. -/
theorem C2_no_stale_bend (ops : List Op) (n : Nat) (v : Voice)
    (h : tableGet (runOps Synthesizer.new ops).sinks n = some v) :
    v.wave = v.base * (2 : ℝ) ^
      ((((runOps Synthesizer.new ops).pitch_bend_value : ℝ) / 8192 * 2) / 12) := by
  have hv := (inv_runOps ops).2 n v h
  rw [hv, apply_pitch_bend_eq]

/-- Voice produced by `note_on(69, 100)` issued on a fresh engine right after
`pitch_bend(12288)` (bend offset `+4096`). -/
noncomputable def bendThenOnVoice : Voice :=
  ⟨0, (Synthesizer.new.pitch_bend_change 12288).apply_pitch_bend
        (midi_note_to_freq 69),
    midi_note_to_freq 69⟩

theorem C2_no_stale_bend_witness :
    tableGet (runOps Synthesizer.new
        [Op.pitchBend 12288, Op.noteOn 69 100]).sinks 69 =
      some bendThenOnVoice ∧
    bendThenOnVoice.wave = bendThenOnVoice.base * (2 : ℝ) ^
      ((((runOps Synthesizer.new
            [Op.pitchBend 12288, Op.noteOn 69 100]).pitch_bend_value : ℝ) /
          8192 * 2) / 12) :=
  ⟨rfl, C2_no_stale_bend [Op.pitchBend 12288, Op.noteOn 69 100] 69
    bendThenOnVoice rfl⟩

/-- C3: after any operation sequence from a fresh engine the voice table has
at most one entry per note; the entry for a note right after `note_on` is
exactly the voice that `note_on` created (most recent wins); and when
`note_on` replaces an existing voice, the prior voice's sink is released. -/
theorem C3_one_voice_per_note (ops : List Op) (s : Synthesizer)
    (note velocity n : Nat) (old : Voice)
    (h : tableGet s.sinks note = some old) :
    List.count n (tableKeys (runOps Synthesizer.new ops).sinks) ≤ 1 ∧
    tableGet (s.note_on note velocity).sinks note =
      some ⟨s.nextSink, s.apply_pitch_bend (midi_note_to_freq note),
        midi_note_to_freq note⟩ ∧
    (s.note_on note velocity).released = old.sinkId :: s.released := by
  refine ⟨?_, ?_, released_note_on_of_some s note velocity old h⟩
  · exact List.nodup_iff_count_le_one.mp (inv_runOps ops).1 n
  · rw [sinks_note_on, tableGet_tableInsert_self]

/-- Voice created by `note_on(60, 100)` on a fresh engine. -/
noncomputable def firstVoice60 : Voice :=
  ⟨0, Synthesizer.new.apply_pitch_bend (midi_note_to_freq 60),
    midi_note_to_freq 60⟩

theorem C3_one_voice_per_note_witness :
    tableGet (Synthesizer.new.note_on 60 100).sinks 60 = some firstVoice60 ∧
    (List.count 60
        (tableKeys (runOps Synthesizer.new
          [Op.noteOn 60 100, Op.noteOn 60 101]).sinks) ≤ 1 ∧
      tableGet ((Synthesizer.new.note_on 60 100).note_on 60 101).sinks 60 =
        some ⟨(Synthesizer.new.note_on 60 100).nextSink,
          (Synthesizer.new.note_on 60 100).apply_pitch_bend
            (midi_note_to_freq 60),
          midi_note_to_freq 60⟩ ∧
      ((Synthesizer.new.note_on 60 100).note_on 60 101).released =
        firstVoice60.sinkId :: (Synthesizer.new.note_on 60 100).released) :=
  ⟨rfl, C3_one_voice_per_note [Op.noteOn 60 100, Op.noteOn 60 101]
    (Synthesizer.new.note_on 60 100) 60 101 60 firstVoice60 rfl⟩

/-- C4: for every note in [0,127] the base frequency is
`440 * 2 ^ ((n - 69) / 12)`; in particular note 69 gives 440 Hz, note 57
gives 220 Hz and note 81 gives 880 Hz (exactly, in the real-number model of
`f32`). -/
theorem C4_base_frequency (n : Nat) (h : n ≤ 127) :
    midi_note_to_freq n = 440 * (2 : ℝ) ^ (((n : ℝ) - 69) / 12) ∧
    midi_note_to_freq 69 = 440 ∧
    midi_note_to_freq 57 = 220 ∧
    midi_note_to_freq 81 = 880 := by
  refine ⟨rfl, ?_, ?_, ?_⟩
  · unfold midi_note_to_freq
    rw [show ((((69 : Nat)) : ℝ) - 69) / 12 = (0 : ℝ) by push_cast; norm_num,
      Real.rpow_zero]
    norm_num
  · unfold midi_note_to_freq
    rw [show ((((57 : Nat)) : ℝ) - 69) / 12 = ((-1 : ℤ) : ℝ) by
        push_cast; norm_num,
      Real.rpow_intCast]
    norm_num
  · unfold midi_note_to_freq
    rw [show ((((81 : Nat)) : ℝ) - 69) / 12 = (1 : ℝ) by push_cast; norm_num,
      Real.rpow_one]
    norm_num

theorem C4_base_frequency_witness :
    (69 : Nat) ≤ 127 ∧
    (midi_note_to_freq 69 = 440 * (2 : ℝ) ^ ((((69 : Nat) : ℝ) - 69) / 12) ∧
      midi_note_to_freq 69 = 440 ∧
      midi_note_to_freq 57 = 220 ∧
      midi_note_to_freq 81 = 880) :=
  ⟨by norm_num, C4_base_frequency 69 (by norm_num)⟩

/-- C5: the decoder classifies: empty input produces no event; for any
decoded event the first byte's high nibble selects the kind and its low
nibble is the channel; a PitchBend's 14-bit value is `(byte2 <<< 7) ||| byte1`,
and `[0xE0, 0, 64]` decodes to value 8192. -/
theorem C5_decoder_classification :
    (∀ s : Synthesizer, decode_midi_message s [] = some (none, s)) ∧
    (∀ (s : Synthesizer) (b : Nat) (rest : List Nat) (e : MidiEvent)
        (s' : Synthesizer), b < 256 →
      decode_midi_message s (b :: rest) = some (some e, s') →
      e.kind = specNibbleKind (b >>> 4) ∧ ∀ c, e.chan = some c → c = b % 16) ∧
    (∀ (s : Synthesizer) (b b1 b2 : Nat) (rest : List Nat),
      0xE0 ≤ b → b ≤ 0xEF →
      decode_midi_message s (b :: b1 :: b2 :: rest) =
        some (some (.pitchBend (b % 16) ((b2 <<< 7) ||| b1)),
          s.pitch_bend_change ((b2 <<< 7) ||| b1))) ∧
    (decode_midi_message Synthesizer.new [0xE0, 0, 64]).map Prod.fst =
      some (some (.pitchBend 0 8192)) := by
  refine ⟨decode_empty,
    fun s b rest e s' _ hdec => decode_kind_channel s b rest e s' hdec,
    ?_, rfl⟩
  intro s b b1 b2 rest h1 h2
  rw [decode_pitchBend s b b1 b2 rest h1 h2, land_fifteen]

/-- C6: `pitch_bend(8192 + 4096)` retunes every live voice to
`base * 2^(1/12)` (one semitone up) and a following `pitch_bend(8192)`
restores every live voice to exactly its base frequency. -/
theorem C6_bend_propagation (s : Synthesizer) (n : Nat) (v : Voice)
    (h : tableGet s.sinks n = some v) :
    tableGet (s.pitch_bend_change (8192 + 4096)).sinks n =
      some ⟨v.sinkId, v.base * (2 : ℝ) ^ ((1 : ℝ) / 12), v.base⟩ ∧
    tableGet
        ((s.pitch_bend_change (8192 + 4096)).pitch_bend_change 8192).sinks n =
      some ⟨v.sinkId, v.base, v.base⟩ := by
  have h1 : (8192 + 4096 : Nat) = 12288 := by norm_num
  rw [h1]
  constructor
  · rw [sinks_pitch_bend_change, tableGet_map_voice, h,
      Option.map_some']
    simp only [retuneVoice]
    rw [apply_pitch_bend_of_4096 _ i16_wrap_bend_12288]
  · rw [sinks_pitch_bend_change, tableGet_map_voice,
      sinks_pitch_bend_change, tableGet_map_voice, h,
      Option.map_some', Option.map_some']
    simp only [retuneVoice]
    rw [apply_pitch_bend_of_zero _ i16_wrap_bend_8192]

/-- Voice created by `note_on(69, 100)` on a fresh engine. -/
noncomputable def firstVoice69 : Voice :=
  ⟨0, Synthesizer.new.apply_pitch_bend (midi_note_to_freq 69),
    midi_note_to_freq 69⟩

theorem C6_bend_propagation_witness :
    tableGet (Synthesizer.new.note_on 69 100).sinks 69 = some firstVoice69 ∧
    (tableGet
          ((Synthesizer.new.note_on 69 100).pitch_bend_change
            (8192 + 4096)).sinks 69 =
        some ⟨firstVoice69.sinkId,
          firstVoice69.base * (2 : ℝ) ^ ((1 : ℝ) / 12), firstVoice69.base⟩ ∧
      tableGet
          (((Synthesizer.new.note_on 69 100).pitch_bend_change
            (8192 + 4096)).pitch_bend_change 8192).sinks 69 =
        some ⟨firstVoice69.sinkId, firstVoice69.base, firstVoice69.base⟩) :=
  ⟨rfl, C6_bend_propagation (Synthesizer.new.note_on 69 100) 69
    firstVoice69 rfl⟩

/-- C7: a NoteOn with velocity 0 is decoded and processed as a NoteOn — it
creates (or replaces) the voice for that note — and is never classified as a
NoteOff. -/
theorem C7_noteon_velocity_zero (s : Synthesizer) (ch note : Nat)
    (rest : List Nat) (h : ch < 16) :
    decode_midi_message s ((0x90 + ch) :: note :: 0 :: rest) =
      some (some (.noteOn ch note 0), s.note_on note 0) ∧
    tableGet (s.note_on note 0).sinks note =
      some ⟨s.nextSink, s.apply_pitch_bend (midi_note_to_freq note),
        midi_note_to_freq note⟩ ∧
    (MidiEvent.noteOn ch note 0).kind ≠ EventKind.noteOff := by
  refine ⟨?_, ?_, by simp [MidiEvent.kind]⟩
  · rw [decode_noteOn s (0x90 + ch) note 0 rest (by omega) (by omega)]
    have hch : (0x90 + ch) &&& 15 = ch := by
      rw [land_fifteen]
      omega
    rw [hch]
  · rw [sinks_note_on, tableGet_tableInsert_self]

theorem C7_noteon_velocity_zero_witness :
    (0 : Nat) < 16 ∧
    (decode_midi_message Synthesizer.new ((0x90 + 0) :: 60 :: 0 :: []) =
        some (some (.noteOn 0 60 0), Synthesizer.new.note_on 60 0) ∧
      tableGet (Synthesizer.new.note_on 60 0).sinks 60 =
        some ⟨Synthesizer.new.nextSink,
          Synthesizer.new.apply_pitch_bend (midi_note_to_freq 60),
          midi_note_to_freq 60⟩ ∧
      (MidiEvent.noteOn 0 60 0).kind ≠ EventKind.noteOff) :=
  ⟨by norm_num, C7_noteon_velocity_zero Synthesizer.new 0 60 [] (by norm_num)⟩

/-- C8: `note_off` on a note with no live voice leaves the engine unchanged
(never fails), after `note_off` the note has no residual voice, and a second
`note_off` in a row is equivalent to one. -/
theorem C8_note_off_idempotent (s : Synthesizer) (n : Nat)
    (h : KeysNodup s) :
    (tableGet s.sinks n = none → s.note_off n = s) ∧
    tableGet (s.note_off n).sinks n = none ∧
    (s.note_off n).note_off n = s.note_off n := by
  have habsent : tableGet (s.note_off n).sinks n = none := by
    rcases hg : tableGet s.sinks n with _ | v
    · rw [note_off_of_none s n hg]
      exact hg
    · rw [note_off_of_some s n v hg]
      exact tableGet_tableRemove_self _ _ h
  exact ⟨fun hnone => note_off_of_none s n hnone, habsent,
    note_off_of_none _ n habsent⟩

theorem C8_note_off_idempotent_witness :
    KeysNodup Synthesizer.new ∧
    ((tableGet Synthesizer.new.sinks 60 = none →
        Synthesizer.new.note_off 60 = Synthesizer.new) ∧
      tableGet (Synthesizer.new.note_off 60).sinks 60 = none ∧
      (Synthesizer.new.note_off 60).note_off 60 =
        Synthesizer.new.note_off 60) :=
  ⟨List.nodup_nil, C8_note_off_idempotent Synthesizer.new 60 List.nodup_nil⟩

/-- C9: `pitch_bend_change` is frame-bounded: it preserves the set of table
keys, voice existence per note, each voice's stored base frequency and sink
handle, and the `released`/`nextSink` resource state — it changes only the
bend offset and the voices' sounding frequencies. -/
theorem C9_pitch_bend_frame (s : Synthesizer) (value n : Nat) :
    tableKeys (s.pitch_bend_change value).sinks = tableKeys s.sinks ∧
    (tableGet (s.pitch_bend_change value).sinks n).isSome =
      (tableGet s.sinks n).isSome ∧
    (tableGet (s.pitch_bend_change value).sinks n).map Voice.base =
      (tableGet s.sinks n).map Voice.base ∧
    (tableGet (s.pitch_bend_change value).sinks n).map Voice.sinkId =
      (tableGet s.sinks n).map Voice.sinkId ∧
    (s.pitch_bend_change value).released = s.released ∧
    (s.pitch_bend_change value).nextSink = s.nextSink := by
  refine ⟨?_, ?_, ?_, ?_, rfl, rfl⟩
  · rw [sinks_pitch_bend_change, tableKeys_map_voice]
  · rw [sinks_pitch_bend_change, tableGet_map_voice]
    cases tableGet s.sinks n <;> rfl
  · rw [sinks_pitch_bend_change, tableGet_map_voice]
    cases tableGet s.sinks n <;> rfl
  · rw [sinks_pitch_bend_change, tableGet_map_voice]
    cases tableGet s.sinks n <;> rfl

/-- C10: a fresh engine has an empty voice table and bend offset 0, and the
first `note_on` before any bend creates a voice sounding at exactly its base
frequency. -/
theorem C10_fresh_engine (note velocity : Nat) :
    Synthesizer.new.sinks = [] ∧
    Synthesizer.new.pitch_bend_value = 0 ∧
    tableGet (Synthesizer.new.note_on note velocity).sinks note =
      some ⟨0, midi_note_to_freq note, midi_note_to_freq note⟩ := by
  refine ⟨rfl, rfl, ?_⟩
  rw [sinks_note_on, tableGet_tableInsert_self,
    apply_pitch_bend_of_zero Synthesizer.new rfl]
  rfl

end MidiRs
